import Mathlib

/-!
Verification of the incremental nearest-neighbor label store and the UI
orchestration of `client_side_ai_training_light`.

The repository's own code (`frontend/app/screens/HomeScreen.tsx`) orchestrates
folder import, learning and prediction; the Label Store itself is supplied by
the `@tensorflow-models/knn-classifier` library and is therefore modelled here
from the specification's language-agnostic description (sections 3, 4.1 and 7).
Embedding vectors are modelled over `ℚ`; distances use the squared Euclidean
distance, which is order-isomorphic to the Euclidean distance, so nearest
selection, tie-breaking and voting are unaffected.
-/

namespace KNNSpec

/-- Modelled from the spec: the error kinds of the Label Store (spec section 7):
`DimensionMismatch`, `EmptyStore` and `InvalidK`. -/
inductive StoreError
  | dimensionMismatch
  | emptyStore
  | invalidK
  deriving DecidableEq, Repr

/-- Modelled from the spec: an Example is an embedding vector paired with a label
(spec section 3), immutable once added. -/
structure Example where
  vec : List ℚ
  label : String
  deriving DecidableEq, Repr

/-- Modelled from the spec: the Label Store holds the collection of Examples.
The spec's per-label grouping is represented by the single insertion-ordered
list of examples (the grouping is recovered by filtering on the label), which
also records the global insertion order that the spec's tie-break contract
refers to. -/
structure Store where
  examples : List Example
  deriving DecidableEq, Repr

/-- Modelled from the spec: the store created empty (spec section 3 lifecycle). -/
def emptyStore : Store := ⟨[]⟩

/-- Modelled from the spec: the established dimension is the dimension of the
first vector ever added; it is absent while the store is empty (spec 4.1).
Every vector in a store reachable through `addExample` has this length, so the
head example's vector length is the established dimension. -/
def Store.dim (s : Store) : Option ℕ :=
  s.examples.head?.map (fun e => e.vec.length)

/-- Modelled from the spec: `addExample(vector, label)` appends the vector under
the label; it fails with `DimensionMismatch` when the vector length differs from
the established dimension (spec 4.1). -/
def addExample (s : Store) (v : List ℚ) (l : String) : Except StoreError Store :=
  match s.dim with
  | none => .ok ⟨s.examples ++ [⟨v, l⟩]⟩
  | some d =>
    if v.length = d then .ok ⟨s.examples ++ [⟨v, l⟩]⟩
    else .error .dimensionMismatch

/-- Modelled from the spec: the state seen by the caller after an `addExample`
call, where a failed call raises a recoverable error and the caller keeps the
store it had (spec section 7: a failed call makes no change). -/
def addExampleRun (s : Store) (v : List ℚ) (l : String) : Store :=
  match addExample s v l with
  | .ok t => t
  | .error _ => s

/-- The number of stored examples carrying a given label. -/
def countLabel (s : Store) (l : String) : ℕ :=
  (s.examples.filter (fun e => e.label = l)).length

/-- The labels that have at least one stored example. -/
def classKeys (s : Store) : List String :=
  (s.examples.map (fun e => e.label)).dedup

/-- Modelled from the spec: `getClassExampleCount()` returns, for every label
with at least one example, the number of examples (spec 4.1). -/
def getClassExampleCount (s : Store) : List (String × ℕ) :=
  (classKeys s).map (fun l => (l, countLabel s l))

/-- Modelled from the spec: `clear()` removes all examples and resets the
established dimension (spec 4.1); in the UI this is a fresh classifier
(`knn.create()`, HomeScreen `onClear`). -/
def clear (_s : Store) : Store := emptyStore

/-- Squared Euclidean distance between two vectors; order-isomorphic to the
Euclidean distance of spec 4.1, hence inducing the same nearest-neighbor
selection, tie-breaks and votes. -/
def sqDist (a b : List ℚ) : ℚ :=
  (List.zipWith (fun x y => (x - y) * (x - y)) a b).sum

/-- A candidate neighbor: its distance to the query, its insertion index in the
store, and its label. -/
structure Neighbor where
  dist : ℚ
  idx : ℕ
  label : String
  deriving DecidableEq, Repr

/-- The order on candidate neighbors: strictly smaller distance first, and among
equal distances the earlier-added example (smaller insertion index) first —
the spec's deterministic tie-break contract (spec section 9). -/
def nbLE (a b : Neighbor) : Prop :=
  a.dist < b.dist ∨ (a.dist = b.dist ∧ a.idx ≤ b.idx)

instance : DecidableRel nbLE := fun a b => by
  unfold nbLE; infer_instance

instance : IsTotal Neighbor nbLE where
  total a b := by
    rcases lt_trichotomy a.dist b.dist with h | h | h
    · exact Or.inl (Or.inl h)
    · rcases le_total a.idx b.idx with hi | hi
      · exact Or.inl (Or.inr ⟨h, hi⟩)
      · exact Or.inr (Or.inr ⟨h.symm, hi⟩)
    · exact Or.inr (Or.inl h)

instance : IsTrans Neighbor nbLE where
  trans a b c hab hbc := by
    rcases hab with h1 | ⟨h1, i1⟩
    · rcases hbc with h2 | ⟨h2, _⟩
      · exact Or.inl (h1.trans h2)
      · exact Or.inl (h2 ▸ h1)
    · rcases hbc with h2 | ⟨h2, i2⟩
      · exact Or.inl (h1 ▸ h2)
      · exact Or.inr ⟨h1.trans h2, i1.trans i2⟩

/-- All stored examples as candidate neighbors of a query: the distance from the
query to every stored vector, with insertion indices (spec 4.1). -/
def allNeighbors (s : Store) (q : List ℚ) : List Neighbor :=
  s.examples.enum.map (fun p => ⟨sqDist q p.2.vec, p.1, p.2.label⟩)

/-- Modelled from the spec: k is clamped to the total number of stored examples
(spec 4.1: when k exceeds the total number of stored examples, all are used). -/
def kClamp (s : Store) (k : ℕ) : ℕ := min k s.examples.length

/-- The k nearest stored examples: the clamped-k smallest distances, ties broken
by insertion order (spec 4.1), realised by sorting candidates by distance then
insertion index and taking the first clamped-k of them. -/
def selected (s : Store) (q : List ℚ) (k : ℕ) : List Neighbor :=
  (List.insertionSort nbLE (allNeighbors s q)).take (kClamp s k)

/-- Votes for a label among a list of neighbors (spec 4.1: tally votes per label
among the k selected). -/
def votes (ns : List Neighbor) (l : String) : ℕ :=
  (ns.filter (fun n => n.label = l)).length

/-- The largest vote count attained by any selected neighbor's label. -/
def maxVotes (ns : List Neighbor) : ℕ :=
  (ns.map (fun n => votes ns n.label)).foldr max 0

/-- The distance of the first (hence nearest, by sortedness) neighbor carrying a
given label, when the label received a vote. -/
def firstDist (ns : List Neighbor) (l : String) : Option ℚ :=
  (ns.find? (fun n => n.label = l)).map (fun n => n.dist)

/-- Modelled from the spec: the Prediction Result — a chosen label plus a
mapping from every known label to a confidence (spec section 3). -/
structure Prediction where
  label : String
  confidences : List (String × ℚ)
  deriving DecidableEq, Repr

/-- Confidence assigned to a label by a Prediction Result; labels absent from
the mapping carry confidence 0. -/
def lookupConf : List (String × ℚ) → String → ℚ
  | [], _ => 0
  | p :: ps, l => if p.1 = l then p.2 else lookupConf ps l

/-- Confidence of a label in a Prediction Result. -/
def confAt (r : Prediction) (l : String) : ℚ := lookupConf r.confidences l

/-- Modelled from the spec: `predict(vector, k)` (spec 4.1). Fails with
`EmptyStore` on a store with no examples, with `InvalidK` when k < 1 (spec
section 7), and with `DimensionMismatch` when the query length differs from the
established dimension. Otherwise it selects the clamped-k nearest stored
examples (ties by insertion order), tallies votes per label, chooses the label
with the most votes — ties among labels resolved in favor of the label whose
nearest selected neighbor comes first in the distance-then-insertion order —
and reports each known label's confidence as its vote fraction. -/
def predict (s : Store) (q : List ℚ) (k : ℕ) : Except StoreError Prediction :=
  match s.examples with
  | [] => .error .emptyStore
  | e :: _ =>
    if k = 0 then .error .invalidK
    else if q.length ≠ e.vec.length then .error .dimensionMismatch
    else
      match (selected s q k).find?
          (fun n => votes (selected s q k) n.label = maxVotes (selected s q k)) with
      | some nb =>
        .ok ⟨nb.label,
          (classKeys s).map (fun l => (l, (votes (selected s q k) l : ℚ) / (kClamp s k : ℚ)))⟩
      | none => .error .emptyStore

/-!
UI orchestration, embedded from `frontend/app/screens/HomeScreen.tsx`.
-/

/-- The path components of a file's relative path: the path split on `/` with
empty components removed (HomeScreen `onAddFolder`:
`rel.split("/").filter(Boolean)`). -/
def pathParts (rel : String) : List String :=
  (rel.splitOn "/").filter (fun p => ¬ p.isEmpty)

/-- The class label the folder import assigns to a file (HomeScreen
`onAddFolder`: `parts.length >= 2 ? parts[parts.length - 2] : "root"`). -/
def importLabel (rel : String) : String :=
  if 2 ≤ (pathParts rel).length then (pathParts rel).getD ((pathParts rel).length - 2) "root"
  else "root"

/-- The spec's wording of the folder-import convention: the label is the name of
the file's immediate parent directory — the component just before the last one —
and a file with no parent directory gets the default label `"root"`. -/
def specParentLabel (rel : String) : String :=
  match (pathParts rel).reverse with
  | _ :: parent :: _ => parent
  | _ => "root"

/-- A file offered to the folder import: its relative path inside the selected
folder and its MIME type string (HomeScreen `onAddFolder`). -/
structure FileEntry where
  relPath : String
  mime : String
  deriving DecidableEq, Repr

/-- The import filter of HomeScreen `onAddFolder`:
`f.type && f.type.startsWith("image/")` — the MIME type must be non-empty
(truthy, i.e. not the empty string) and start with `"image/"`; stated on the
character sequences of the strings. -/
def isImageEntry (f : FileEntry) : Bool :=
  !f.mime.data.isEmpty && "image/".data.isPrefixOf f.mime.data

/-- The UI state touched by the folder import: the pending-files list and the
train-preview list. Browser object URLs are represented by the file they are
created from, paired with its label. -/
structure ImportState where
  pendingFiles : List (FileEntry × String)
  trainPreviews : List (FileEntry × String)
  deriving DecidableEq, Repr

/-- The scanning loop of HomeScreen `onAddFolder`: walks the offered files in
order, skips any file failing the image filter, and collects for each accepted
file a pending entry and a preview entry (both labelled by `importLabel`),
counting the accepted files. -/
def scanFolder : List FileEntry → List (FileEntry × String) × List (FileEntry × String) × ℕ
  | [] => ([], [], 0)
  | f :: fs =>
    if isImageEntry f then
      ((f, importLabel f.relPath) :: (scanFolder fs).1,
        (f, importLabel f.relPath) :: (scanFolder fs).2.1,
        (scanFolder fs).2.2 + 1)
    else scanFolder fs

/-- HomeScreen `onAddFolder` after the scan: when no file was accepted the state
is unchanged (only a message is logged); otherwise the new pending entries are
prepended to the pending list and the new previews are prepended to the preview
list, which is then truncated to 200 entries (`slice(0, 200)`). -/
def onAddFolder (st : ImportState) (files : List FileEntry) : ImportState :=
  if (scanFolder files).2.2 = 0 then st
  else
    { pendingFiles := (scanFolder files).1 ++ st.pendingFiles
      trainPreviews := ((scanFolder files).2.1 ++ st.trainPreviews).take 200 }

/-- The observable outcome of pressing the Predict button: either a logged
message (a guard fired) or a call of the classifier's predict operation with a
neighbor count. -/
inductive PredictOutcome
  | message (s : String)
  | runPredict (k : ℕ)
  deriving DecidableEq, Repr

/-- HomeScreen `onPredictBtn`: returns a message when no test image is selected,
when the model or classifier is not ready, or when the classifier knows no
classes; otherwise it calls `predictClass(logits, 5)`. -/
def onPredictBtn (testFileSelected : Bool) (modelReady : Bool) (s : Store) : PredictOutcome :=
  if !testFileSelected then .message "Pick a test image first."
  else if !modelReady then .message "Model not ready yet"
  else if (getClassExampleCount s).length = 0 then
    .message "No classes yet. Click Learn after importing a folder."
  else .runPredict 5

/-!
Helper lemmas about the Label Store model.
-/

theorem length_allNeighbors (s : Store) (q : List ℚ) :
    (allNeighbors s q).length = s.examples.length := by
  simp [allNeighbors]

theorem length_sortedNeighbors (s : Store) (q : List ℚ) :
    (List.insertionSort nbLE (allNeighbors s q)).length = s.examples.length := by
  rw [(List.perm_insertionSort nbLE (allNeighbors s q)).length_eq, length_allNeighbors]

theorem length_selected (s : Store) (q : List ℚ) (k : ℕ) :
    (selected s q k).length = kClamp s k := by
  rw [selected, List.length_take, length_sortedNeighbors, kClamp]
  omega

theorem kClamp_pos (s : Store) (k : ℕ) (hs : s.examples ≠ []) (hk : k ≠ 0) :
    1 ≤ kClamp s k := by
  have hN : 0 < s.examples.length := List.length_pos.mpr hs
  rw [kClamp]
  omega

theorem selected_ne_nil (s : Store) (q : List ℚ) (k : ℕ)
    (hs : s.examples ≠ []) (hk : k ≠ 0) : selected s q k ≠ [] := by
  intro h
  have hlen := length_selected s q k
  rw [h] at hlen
  have := kClamp_pos s k hs hk
  simp at hlen
  omega

theorem sorted_selected (s : Store) (q : List ℚ) (k : ℕ) :
    List.Sorted nbLE (selected s q k) :=
  (List.sorted_insertionSort nbLE (allNeighbors s q)).take

theorem mem_allNeighbors_of_mem_selected (s : Store) (q : List ℚ) (k : ℕ) (n : Neighbor)
    (h : n ∈ selected s q k) : n ∈ allNeighbors s q :=
  (List.mem_insertionSort nbLE).mp (List.mem_of_mem_take h)

theorem label_mem_of_mem_allNeighbors (s : Store) (q : List ℚ) (n : Neighbor)
    (h : n ∈ allNeighbors s q) : n.label ∈ s.examples.map (fun e => e.label) := by
  rw [allNeighbors] at h
  obtain ⟨p, hp, hn⟩ := List.mem_map.mp h
  have hmem : p.2 ∈ s.examples := by
    have := List.mem_map_of_mem Prod.snd hp
    rwa [List.enum_map_snd] at this
  rw [← hn]
  exact List.mem_map_of_mem _ hmem

theorem votes_le_length (ns : List Neighbor) (l : String) : votes ns l ≤ ns.length :=
  List.length_filter_le _ _

theorem votes_pos_iff (ns : List Neighbor) (l : String) :
    1 ≤ votes ns l ↔ ∃ n ∈ ns, n.label = l := by
  rw [votes]
  constructor
  · intro h
    have hne : ns.filter (fun n => n.label = l) ≠ [] := by
      intro hnil
      rw [hnil] at h
      simp at h
    obtain ⟨n, hn⟩ := List.exists_mem_of_ne_nil _ hne
    have hm := List.mem_filter.mp hn
    exact ⟨n, hm.1, by simpa using hm.2⟩
  · rintro ⟨n, hm, hl⟩
    have : n ∈ ns.filter (fun n => n.label = l) :=
      List.mem_filter.mpr ⟨hm, by simpa using hl⟩
    exact List.length_pos_of_mem this

theorem le_foldr_max (l : List ℕ) (a : ℕ) (h : a ∈ l) : a ≤ l.foldr max 0 := by
  induction l with
  | nil => cases h
  | cons b t ih =>
    simp only [List.foldr_cons]
    rcases List.mem_cons.mp h with rfl | h
    · exact le_max_left _ _
    · exact le_trans (ih h) (le_max_right _ _)

theorem foldr_max_mem (l : List ℕ) (h : l ≠ []) : l.foldr max 0 ∈ l := by
  induction l with
  | nil => exact absurd rfl h
  | cons b t ih =>
    simp only [List.foldr_cons]
    rcases eq_or_ne t [] with rfl | ht
    · simp
    · rcases max_cases b (t.foldr max 0) with ⟨he, _⟩ | ⟨he, _⟩
      · rw [he]
        exact List.mem_cons_self _ _
      · rw [he]
        exact List.mem_cons_of_mem _ (ih ht)

theorem votes_le_maxVotes (ns : List Neighbor) (l : String) :
    votes ns l ≤ maxVotes ns := by
  rcases Nat.eq_zero_or_pos (votes ns l) with h | h
  · rw [h]
    exact Nat.zero_le _
  · obtain ⟨n, hn, hl⟩ := (votes_pos_iff ns l).mp h
    have hmem : votes ns n.label ∈ ns.map (fun n => votes ns n.label) :=
      List.mem_map_of_mem _ hn
    rw [← hl]
    exact le_foldr_max _ _ hmem

theorem exists_maxVotes (ns : List Neighbor) (h : ns ≠ []) :
    ∃ n ∈ ns, votes ns n.label = maxVotes ns := by
  have hm : maxVotes ns ∈ ns.map (fun n => votes ns n.label) := by
    apply foldr_max_mem
    simpa using h
  obtain ⟨n, hn, he⟩ := List.mem_map.mp hm
  exact ⟨n, hn, he⟩

theorem find_chosen_isSome (ns : List Neighbor) (h : ns ≠ []) :
    ∃ nb, ns.find? (fun n => votes ns n.label = maxVotes ns) = some nb := by
  obtain ⟨n, hn, he⟩ := exists_maxVotes ns h
  have : (ns.find? (fun n => votes ns n.label = maxVotes ns)).isSome := by
    rw [List.find?_isSome]
    exact ⟨n, hn, by simpa using he⟩
  exact Option.isSome_iff_exists.mp this

theorem nbLE_dist_le (a b : Neighbor) (h : nbLE a b) : a.dist ≤ b.dist := by
  rcases h with h | ⟨h, _⟩
  · exact le_of_lt h
  · exact le_of_eq h

theorem predict_ok_inv (s : Store) (q : List ℚ) (k : ℕ) (r : Prediction)
    (h : predict s q k = .ok r) :
    s.examples ≠ [] ∧ k ≠ 0 ∧
    ∃ nb, (selected s q k).find?
        (fun n => votes (selected s q k) n.label = maxVotes (selected s q k)) = some nb ∧
      r = ⟨nb.label,
        (classKeys s).map (fun l => (l, (votes (selected s q k) l : ℚ) / (kClamp s k : ℚ)))⟩ := by
  unfold predict at h
  cases hs : s.examples with
  | nil =>
    rw [hs] at h
    simp at h
  | cons e es =>
    rw [hs] at h
    simp only at h
    by_cases hk : k = 0
    · simp [hk] at h
    · rw [if_neg hk] at h
      by_cases hq : q.length ≠ e.vec.length
      · rw [if_pos hq] at h
        simp at h
      · rw [if_neg hq] at h
        cases hf : (selected s q k).find?
            (fun n => votes (selected s q k) n.label = maxVotes (selected s q k)) with
        | none =>
          rw [hf] at h
          simp at h
        | some nb =>
          rw [hf] at h
          simp only [Except.ok.injEq] at h
          exact ⟨by simp [hs], hk, nb, rfl, h.symm⟩

theorem lookupConf_map (ks : List String) (g : String → ℚ) (l : String) :
    lookupConf (ks.map (fun x => (x, g x))) l = if l ∈ ks then g l else 0 := by
  induction ks with
  | nil => simp [lookupConf]
  | cons a t ih =>
    simp only [List.map_cons, lookupConf, List.mem_cons]
    by_cases ha : a = l
    · subst ha
      simp
    · simp [ha, Ne.symm ha, ih]

theorem votes_eq_count (ns : List Neighbor) (l : String) :
    votes ns l = List.count l (ns.map (fun n => n.label)) := by
  induction ns with
  | nil => rfl
  | cons n t ih =>
    rw [votes] at ih ⊢
    rw [List.filter_cons, List.map_cons, List.count_cons]
    by_cases h : n.label = l
    · simp [h, ih]
    · simp [h, ih]

theorem sum_map_div (l : List String) (f : String → ℚ) (c : ℚ) :
    (l.map (fun x => f x / c)).sum = (l.map f).sum / c := by
  induction l with
  | nil => simp
  | cons a t ih => simp [ih, add_div]

theorem sum_votes_selected (ns : List Neighbor) :
    ((ns.map (fun n => n.label)).dedup.map (fun l => votes ns l)).sum = ns.length := by
  have h := List.sum_map_count_dedup_eq_length (ns.map (fun n => n.label))
  rw [List.map_congr_left (fun l _ => votes_eq_count ns l)]
  rw [h, List.length_map]

theorem firstDist_append_self (as bs : List Neighbor) (nb : Neighbor)
    (hnotin : ∀ a ∈ as, a.label ≠ nb.label) :
    firstDist (as ++ nb :: bs) nb.label = some nb.dist := by
  rw [firstDist, List.find?_append]
  have h1 : as.find? (fun n => n.label = nb.label) = none :=
    List.find?_eq_none.mpr (fun x hx => by simpa using hnotin x hx)
  rw [h1]
  simp [List.find?_cons]

theorem tiebreak_of_sorted (ns : List Neighbor) (hsort : List.Sorted nbLE ns) (nb : Neighbor)
    (hf : ns.find? (fun n => votes ns n.label = maxVotes ns) = some nb) (l : String)
    (hv : 1 ≤ votes ns l) (he : votes ns l = votes ns nb.label) :
    ∃ dc dl, firstDist ns nb.label = some dc ∧ firstDist ns l = some dl ∧ dc ≤ dl := by
  obtain ⟨hP, as, bs, hsplit, hfail⟩ := List.find?_eq_some.mp hf
  have hPnb : votes ns nb.label = maxVotes ns := by simpa using hP
  have hno : ∀ a ∈ as, a.label ≠ nb.label := by
    intro a ha hlab
    have hva : votes ns a.label = maxVotes ns := by
      rw [hlab]
      exact hPnb
    have hfa := hfail a ha
    simp [hva] at hfa
  have hfirstc : firstDist ns nb.label = some nb.dist := by
    rw [hsplit]
    exact firstDist_append_self as bs nb hno
  obtain ⟨m, hm⟩ : ∃ m, ns.find? (fun n => n.label = l) = some m := by
    have hsome : (ns.find? (fun n => n.label = l)).isSome := by
      rw [List.find?_isSome]
      obtain ⟨n, hn, hl⟩ := (votes_pos_iff ns l).mp hv
      exact ⟨n, hn, by simpa using hl⟩
    exact Option.isSome_iff_exists.mp hsome
  have hml : m.label = l := by simpa using List.find?_some hm
  have hmem : m ∈ ns := List.mem_of_find?_eq_some hm
  refine ⟨nb.dist, m.dist, hfirstc, by simp [firstDist, hm], ?_⟩
  by_cases hcase : m ∈ as
  · exfalso
    have hfa := hfail m hcase
    have hvm : votes ns m.label = maxVotes ns := by
      rw [hml, he]
      exact hPnb
    simp [hvm] at hfa
  · have hmb : m = nb ∨ m ∈ bs := by
      have hmem2 : m ∈ as ++ nb :: bs := hsplit ▸ hmem
      rcases List.mem_append.mp hmem2 with h | h
      · exact absurd h hcase
      · exact List.mem_cons.mp h
    rcases hmb with rfl | hmbs
    · exact le_refl _
    · have hpair : List.Pairwise nbLE (as ++ nb :: bs) := by
        rw [← hsplit]
        exact hsort
      have h2 := (List.pairwise_append.mp hpair).2.1
      exact nbLE_dist_le _ _ (List.rel_of_pairwise_cons h2 hmbs)

/-!
Claim theorems.
-/

/-- C2: when two stored examples are at exactly equal distance from the query,
the k-nearest selection prefers the example added first (smaller insertion
index), and predict is a pure function of the store contents, query and k, so
repeated calls with the same inputs return the same Prediction Result. -/
theorem selection_prefers_earlier_on_tie (s : Store) (q : List ℚ) (k : ℕ)
    (a b : Neighbor) (ha : a ∈ allNeighbors s q) (hb : b ∈ allNeighbors s q)
    (hd : a.dist = b.dist) (hi : a.idx < b.idx) (hsel : b ∈ selected s q k) :
    a ∈ selected s q k ∧ predict s q k = predict s q k := by
  refine ⟨?_, rfl⟩
  have haL : a ∈ List.insertionSort nbLE (allNeighbors s q) :=
    (List.mem_insertionSort nbLE).mpr ha
  have hsort : List.Sorted nbLE (List.insertionSort nbLE (allNeighbors s q)) :=
    List.sorted_insertionSort nbLE (allNeighbors s q)
  have hsplit : a ∈ (List.insertionSort nbLE (allNeighbors s q)).take (kClamp s k) ∨
      a ∈ (List.insertionSort nbLE (allNeighbors s q)).drop (kClamp s k) := by
    rcases List.mem_append.mp
        (by rw [List.take_append_drop]; exact haL :
          a ∈ (List.insertionSort nbLE (allNeighbors s q)).take (kClamp s k) ++
            (List.insertionSort nbLE (allNeighbors s q)).drop (kClamp s k)) with h | h
    · exact Or.inl h
    · exact Or.inr h
  rcases hsplit with h | h
  · exact h
  · exfalso
    have hba : nbLE b a := hsort.rel_of_mem_take_of_mem_drop hsel h
    rcases hba with hlt | ⟨_, hle⟩
    · rw [hd] at hlt
      exact lt_irrefl _ hlt
    · omega

/-- C2 witness: in a store holding two examples at distance 1 from the query,
with k = 2 both are selected, and the theorem instantiates to show the
earlier-added one is selected. -/
theorem selection_prefers_earlier_on_tie_witness :
    (⟨1, 0, "a"⟩ : Neighbor) ∈ selected ⟨[⟨[0, 1], "a"⟩, ⟨[1, 0], "b"⟩]⟩ [0, 0] 2 :=
  (selection_prefers_earlier_on_tie ⟨[⟨[0, 1], "a"⟩, ⟨[1, 0], "b"⟩]⟩ [0, 0] 2
    ⟨1, 0, "a"⟩ ⟨1, 1, "b"⟩
    (by norm_num [allNeighbors, sqDist, List.enum, List.enumFrom])
    (by norm_num [allNeighbors, sqDist, List.enum, List.enumFrom])
    rfl (by norm_num)
    (by norm_num [selected, allNeighbors, sqDist, kClamp, List.insertionSort,
      List.orderedInsert, nbLE, List.enum, List.enumFrom])).1

/-- C3: on a store with established dimension d, `addExample` with a vector of a
different length fails with `DimensionMismatch`, the caller's store is exactly
what it was, and in particular the per-label example counts are unchanged. -/
theorem addExample_dim_mismatch_atomic (s : Store) (d : ℕ) (v : List ℚ) (l : String)
    (hd : s.dim = some d) (hv : v.length ≠ d) :
    addExample s v l = .error .dimensionMismatch ∧
    addExampleRun s v l = s ∧
    getClassExampleCount (addExampleRun s v l) = getClassExampleCount s := by
  have h1 : addExample s v l = .error .dimensionMismatch := by
    rw [addExample, hd]
    simp [hv]
  have h2 : addExampleRun s v l = s := by
    rw [addExampleRun, h1]
  exact ⟨h1, h2, by rw [h2]⟩

/-- C3 witness: the spec's scenario — a store with established dimension 4
rejects `addExample([1,2,3], "x")` with `DimensionMismatch` and is unchanged. -/
theorem addExample_dim_mismatch_atomic_witness :
    addExample ⟨[⟨[1, 2, 3, 4], "x"⟩]⟩ [1, 2, 3] "x" = .error .dimensionMismatch ∧
    addExampleRun ⟨[⟨[1, 2, 3, 4], "x"⟩]⟩ [1, 2, 3] "x" = ⟨[⟨[1, 2, 3, 4], "x"⟩]⟩ := by
  have h := addExample_dim_mismatch_atomic ⟨[⟨[1, 2, 3, 4], "x"⟩]⟩ 4 [1, 2, 3] "x"
    (by decide) (by decide)
  exact ⟨h.1, h.2.1⟩

/-- C4: predict on a store with zero examples fails with `EmptyStore`, for every
query vector and every k; and conversely `EmptyStore` only arises from an empty
store — a non-empty store yields `InvalidK`, `DimensionMismatch` or a result,
never `EmptyStore`. -/
theorem predict_emptyStore_iff (s : Store) (q : List ℚ) (k : ℕ) :
    (s.examples = [] → predict s q k = .error .emptyStore) ∧
    (predict s q k = .error .emptyStore → s.examples = []) := by
  constructor
  · intro h
    rw [predict, h]
  · intro h
    by_contra hne
    cases hs : s.examples with
    | nil => exact hne hs
    | cons e es =>
      rw [predict, hs] at h
      simp only at h
      by_cases hk : k = 0
      · simp [hk] at h
      · rw [if_neg hk] at h
        by_cases hq : q.length ≠ e.vec.length
        · rw [if_pos hq] at h
          simp at h
        · rw [if_neg hq] at h
          obtain ⟨nb, hnb⟩ := find_chosen_isSome (selected s q k)
            (selected_ne_nil s q k (by simp [hs]) hk)
          rw [hnb] at h
          simp at h

/-- C4 witness: the spec's scenario — `predict([1,2,3], k=1)` on the empty store
fails with `EmptyStore`. -/
theorem predict_emptyStore_iff_witness :
    predict ⟨[]⟩ [1, 2, 3] 1 = .error .emptyStore :=
  (predict_emptyStore_iff ⟨[]⟩ [1, 2, 3] 1).1 rfl

/-- C8: `clear()` is idempotent — clearing twice equals clearing once; the
cleared store has no examples and no established dimension, and the next
`addExample` succeeds with any vector, establishing that vector's length as the
new dimension. -/
theorem clear_idempotent_and_resets (s : Store) (v : List ℚ) (l : String) :
    clear (clear s) = clear s ∧
    (clear s).examples = [] ∧
    (clear s).dim = none ∧
    addExample (clear s) v l = .ok ⟨[⟨v, l⟩]⟩ ∧
    (Store.mk [⟨v, l⟩]).dim = some v.length :=
  ⟨rfl, rfl, rfl, rfl, rfl⟩

/-- C5: on a non-empty store with a well-dimensioned query and k larger than
the number of stored examples, predict succeeds, k is clamped to the store
size, and the selected neighbors are a permutation of all stored examples'
candidates — every stored example participates exactly once in the distance
computation and vote tally. -/
theorem predict_clamps_k (s : Store) (q : List ℚ) (k : ℕ)
    (hs : s.examples ≠ []) (hq : s.dim = some q.length) (hk : s.examples.length < k) :
    (∃ r, predict s q k = .ok r) ∧ kClamp s k = s.examples.length ∧
    (selected s q k).Perm (allNeighbors s q) := by
  have hkc : kClamp s k = s.examples.length := by
    rw [kClamp]
    omega
  have hk0 : k ≠ 0 := by
    have := List.length_pos.mpr hs
    omega
  have hperm : (selected s q k).Perm (allNeighbors s q) := by
    rw [selected, hkc, List.take_of_length_le (le_of_eq (length_sortedNeighbors s q))]
    exact List.perm_insertionSort nbLE _
  refine ⟨?_, hkc, hperm⟩
  cases hsx : s.examples with
  | nil => exact absurd hsx hs
  | cons e es =>
    rw [predict, hsx]
    simp only
    rw [if_neg hk0]
    have hq2 : ¬ q.length ≠ e.vec.length := by
      rw [Store.dim, hsx] at hq
      simp at hq
      omega
    rw [if_neg hq2]
    obtain ⟨nb, hf⟩ := find_chosen_isSome (selected s q k) (selected_ne_nil s q k hs hk0)
    rw [hf]
    exact ⟨_, rfl⟩

/-- C5 witness: a store with one stored example answers `predict` with k = 5
without failing, clamping k to 1 and using the single example once. -/
theorem predict_clamps_k_witness :
    (∃ r, predict ⟨[⟨[1, 0], "a"⟩]⟩ [0, 0] 5 = .ok r) ∧
    kClamp ⟨[⟨[1, 0], "a"⟩]⟩ 5 = 1 ∧
    (selected ⟨[⟨[1, 0], "a"⟩]⟩ [0, 0] 5).Perm (allNeighbors ⟨[⟨[1, 0], "a"⟩]⟩ [0, 0]) :=
  predict_clamps_k ⟨[⟨[1, 0], "a"⟩]⟩ [0, 0] 5 (by simp) rfl (by norm_num)

/-- C6: the label chosen by a successful predict is one of the keys of
`getClassExampleCount()` — a label with at least one stored example. -/
theorem predict_label_in_counts (s : Store) (q : List ℚ) (k : ℕ) (r : Prediction)
    (h : predict s q k = .ok r) :
    r.label ∈ (getClassExampleCount s).map Prod.fst := by
  obtain ⟨hs, hk0, nb, hf, hr⟩ := predict_ok_inv s q k r h
  have hnb : nb ∈ selected s q k := List.mem_of_find?_eq_some hf
  have h1 : nb.label ∈ s.examples.map (fun e => e.label) :=
    label_mem_of_mem_allNeighbors s q nb (mem_allNeighbors_of_mem_selected s q k nb hnb)
  have h2 : nb.label ∈ classKeys s := by
    rw [classKeys]
    exact List.mem_dedup.mpr h1
  have h3 : (getClassExampleCount s).map Prod.fst = classKeys s := by
    rw [getClassExampleCount, List.map_map]
    exact (List.map_congr_left fun a _ => rfl).trans (List.map_id _)
  rw [hr, h3]
  exact h2

/-- C6 witness: on a store that knows labels "a" and "b", the chosen label "a"
is among the keys of `getClassExampleCount`. -/
theorem predict_label_in_counts_witness :
    (Prediction.mk "a" [("a", 1 / 2), ("b", 1 / 2)]).label ∈
      (getClassExampleCount ⟨[⟨[1, 0], "a"⟩, ⟨[0, 1], "b"⟩]⟩).map Prod.fst := by
  have h := predict_label_in_counts ⟨[⟨[1, 0], "a"⟩, ⟨[0, 1], "b"⟩]⟩ [0, 0] 2
    ⟨"a", [("a", 1 / 2), ("b", 1 / 2)]⟩ ?_
  · exact h
  · norm_num [predict, selected, allNeighbors, sqDist, kClamp, classKeys, votes, maxVotes,
      List.insertionSort, List.orderedInsert, nbLE, List.find?_cons, List.filter_cons,
      List.enum, List.enumFrom, List.dedup_cons_of_mem, List.dedup_cons_of_not_mem] <;> simp

/-- C1: a successful predict with k ≥ 1 returns the label with the most votes
among the selected k nearest stored examples — ties among equal-vote labels
resolved in favor of the label whose nearest selected neighbor has the smallest
distance — together with a confidence for every known label, each confidence in
[0,1], the confidences of the labels that received at least one vote summing to
1, and every zero-vote label having confidence exactly 0. -/
theorem predict_result_correct (s : Store) (q : List ℚ) (k : ℕ) (r : Prediction)
    (hk : 1 ≤ k) (h : predict s q k = .ok r) :
    (∀ l, votes (selected s q k) l ≤ votes (selected s q k) r.label) ∧
    (∀ l, 1 ≤ votes (selected s q k) l →
        votes (selected s q k) l = votes (selected s q k) r.label →
        ∃ dc dl, firstDist (selected s q k) r.label = some dc ∧
          firstDist (selected s q k) l = some dl ∧ dc ≤ dl) ∧
    r.confidences.map Prod.fst = classKeys s ∧
    (∀ p ∈ r.confidences, 0 ≤ p.2 ∧ p.2 ≤ 1) ∧
    (((selected s q k).map (fun n => n.label)).dedup.map (fun l => confAt r l)).sum = 1 ∧
    (∀ l, votes (selected s q k) l = 0 → confAt r l = 0) := by
  obtain ⟨hs, hk0, nb, hf, hr⟩ := predict_ok_inv s q k r h
  have hlabel : r.label = nb.label := by rw [hr]
  have hmax : votes (selected s q k) nb.label = maxVotes (selected s q k) := by
    simpa using List.find?_some hf
  have hkc1 : 1 ≤ kClamp s k := kClamp_pos s k hs hk0
  have hlen : (selected s q k).length = kClamp s k := length_selected s q k
  have hkcQ : (0 : ℚ) < (kClamp s k : ℚ) := by exact_mod_cast hkc1
  refine ⟨?_, ?_, ?_, ?_, ?_, ?_⟩
  · intro l
    rw [hlabel, hmax]
    exact votes_le_maxVotes _ l
  · intro l hv he
    rw [hlabel] at he ⊢
    exact tiebreak_of_sorted (selected s q k) (sorted_selected s q k) nb hf l hv he
  · rw [hr]
    show ((classKeys s).map _).map Prod.fst = classKeys s
    rw [List.map_map]
    exact (List.map_congr_left fun a _ => rfl).trans (List.map_id _)
  · rw [hr]
    intro p hp
    simp only [List.mem_map] at hp
    obtain ⟨l, _, rfl⟩ := hp
    refine ⟨div_nonneg (Nat.cast_nonneg _) (le_of_lt hkcQ), ?_⟩
    rw [div_le_one hkcQ]
    exact_mod_cast hlen ▸ votes_le_length (selected s q k) l
  · have hconf : ∀ l ∈ ((selected s q k).map (fun n => n.label)).dedup,
        confAt r l = (votes (selected s q k) l : ℚ) / (kClamp s k : ℚ) := by
      intro l hl
      obtain ⟨n, hn, rfl⟩ := List.mem_map.mp (List.mem_dedup.mp hl)
      have h1 : n.label ∈ classKeys s := by
        rw [classKeys]
        exact List.mem_dedup.mpr (label_mem_of_mem_allNeighbors s q n
          (mem_allNeighbors_of_mem_selected s q k n hn))
      rw [hr]
      show lookupConf ((classKeys s).map
        (fun l => (l, (votes (selected s q k) l : ℚ) / (kClamp s k : ℚ)))) n.label = _
      rw [lookupConf_map, if_pos h1]
    rw [List.map_congr_left hconf, sum_map_div]
    have hcast : ((selected s q k).map (fun n => n.label)).dedup.map
        (fun l => (votes (selected s q k) l : ℚ)) =
        (((selected s q k).map (fun n => n.label)).dedup.map
          (fun l => votes (selected s q k) l)).map (fun n : ℕ => (n : ℚ)) := by
      rw [List.map_map]
      rfl
    rw [hcast, ← Nat.cast_list_sum, sum_votes_selected, hlen]
    exact div_self (ne_of_gt hkcQ)
  · intro l hv
    rw [hr]
    show lookupConf ((classKeys s).map
      (fun x => (x, (votes (selected s q k) x : ℚ) / (kClamp s k : ℚ)))) l = 0
    rw [lookupConf_map]
    by_cases hmem : l ∈ classKeys s
    · rw [if_pos hmem, hv]
      simp
    · rw [if_neg hmem]

/-- C1 witness: on a store with two "a" examples near the query and one "b"
example far from it, predict with k = 3 chooses "a", whose 2 votes are at least
"b"'s 1 vote, and assigns "a" confidence 2/3. -/
theorem predict_result_correct_witness :
    votes (selected ⟨[⟨[1, 0], "a"⟩, ⟨[0, 1], "b"⟩, ⟨[1, 0], "a"⟩]⟩ [9/10, 1/10] 3) "b" ≤
      votes (selected ⟨[⟨[1, 0], "a"⟩, ⟨[0, 1], "b"⟩, ⟨[1, 0], "a"⟩]⟩ [9/10, 1/10] 3)
        (Prediction.mk "a" [("b", 1/3), ("a", 2/3)]).label ∧
    confAt ⟨"a", [("b", 1/3), ("a", 2/3)]⟩ "a" = 2/3 := by
  have h := predict_result_correct ⟨[⟨[1, 0], "a"⟩, ⟨[0, 1], "b"⟩, ⟨[1, 0], "a"⟩]⟩
    [9/10, 1/10] 3 ⟨"a", [("b", 1/3), ("a", 2/3)]⟩ (by norm_num) ?_
  · exact ⟨h.1 "b", by simp [confAt, lookupConf]⟩
  · norm_num [predict, selected, allNeighbors, sqDist, kClamp, classKeys, votes, maxVotes,
      List.insertionSort, List.orderedInsert, nbLE, List.find?_cons, List.filter_cons,
      List.enum, List.enumFrom, List.dedup_cons_of_mem, List.dedup_cons_of_not_mem] <;> simp

theorem getD_append_cons (xs : List String) (p : String) (ys : List String) (d : String) :
    (xs ++ p :: ys).getD xs.length d = p := by
  induction xs with
  | nil => rfl
  | cons a t ih => simpa using ih

/-- C7: the label assigned by the folder import is the name of the file's
immediate parent directory — the second-to-last component of the relative
path — and a file whose path has no parent directory gets the default label
`"root"`: the code's index computation agrees with the spec's wording. -/
theorem importLabel_eq_specParentLabel (rel : String) :
    importLabel rel = specParentLabel rel := by
  rw [importLabel, specParentLabel]
  cases hr : (pathParts rel).reverse with
  | nil =>
    have hps : pathParts rel = [] := by
      have h := congrArg List.reverse hr
      simpa using h
    rw [hps]
    simp
  | cons lastEl rest =>
    cases rest with
    | nil =>
      have hps : pathParts rel = [lastEl] := by
        have h := congrArg List.reverse hr
        simpa using h
      rw [hps]
      simp
    | cons parent revRest =>
      have hps : pathParts rel = revRest.reverse ++ parent :: [lastEl] := by
        have h := congrArg List.reverse hr
        rw [List.reverse_reverse] at h
        rw [h]
        simp
      rw [hps]
      have hlen : (revRest.reverse ++ parent :: [lastEl]).length = revRest.length + 2 := by
        simp
      rw [if_pos (by rw [hlen]; omega)]
      have hidx : (revRest.reverse ++ parent :: [lastEl]).length - 2 = revRest.reverse.length := by
        simp
      rw [hidx, getD_append_cons]

/-- C9: whenever the Predict button press passes all guards (test image chosen,
model and classifier ready, at least one class learned) and reaches the
classifier, it calls predict with neighbor count k = 5 — no other k is ever
used. -/
theorem onPredictBtn_k_is_five (tf rd : Bool) (s : Store) (k : ℕ)
    (h : onPredictBtn tf rd s = .runPredict k) : k = 5 := by
  rw [onPredictBtn] at h
  by_cases h1 : tf = true
  · by_cases h2 : rd = true
    · by_cases h3 : (getClassExampleCount s).length = 0
      · simp [h1, h2, h3] at h
      · simp [h1, h2, h3] at h
        exact h.symm
    · simp [h1, h2] at h
  · simp [h1] at h

/-- C9 witness: with a test image, a ready model and one learned class, the
button outcome is a predict call, and the theorem yields its k is 5. -/
theorem onPredictBtn_k_is_five_witness : (5 : ℕ) = 5 :=
  onPredictBtn_k_is_five true true ⟨[⟨[1], "a"⟩]⟩ 5 rfl

/-- C10: the folder-import scan keeps exactly the files whose MIME type is
non-empty and starts with "image/": the collected pending entries and previews
are those of the filtered files (labelled by `importLabel`), the imported count
is the number of accepted files, and when no file passes the filter the UI
state is left entirely unchanged. -/
theorem scanFolder_image_filter (files : List FileEntry) (st : ImportState) :
    (scanFolder files).1 =
      (files.filter isImageEntry).map (fun f => (f, importLabel f.relPath)) ∧
    (scanFolder files).2.1 =
      (files.filter isImageEntry).map (fun f => (f, importLabel f.relPath)) ∧
    (scanFolder files).2.2 = (files.filter isImageEntry).length ∧
    (files.filter isImageEntry = [] → onAddFolder st files = st) := by
  have main : (scanFolder files).1 =
      (files.filter isImageEntry).map (fun f => (f, importLabel f.relPath)) ∧
      (scanFolder files).2.1 =
        (files.filter isImageEntry).map (fun f => (f, importLabel f.relPath)) ∧
      (scanFolder files).2.2 = (files.filter isImageEntry).length := by
    induction files with
    | nil => exact ⟨rfl, rfl, rfl⟩
    | cons f fs ih =>
      rw [scanFolder, List.filter_cons]
      by_cases hf : isImageEntry f
      · simp only [hf, if_true, decide_eq_true_eq]
        simp [ih.1, ih.2.1, ih.2.2]
      · simp only [hf, if_false]
        simp [hf, ih.1, ih.2.1, ih.2.2]
  refine ⟨main.1, main.2.1, main.2.2, ?_⟩
  intro hempty
  have hz : (scanFolder files).2.2 = 0 := by
    rw [main.2.2, hempty]
    rfl
  rw [onAddFolder, if_pos hz]

/-- C10 witness: a folder containing only a non-image file contributes no
pending entries, no previews, a zero count, and leaves the state unchanged. -/
theorem scanFolder_image_filter_witness :
    (scanFolder [⟨"a/b.txt", "text/plain"⟩]).1 = [] ∧
    (scanFolder [⟨"a/b.txt", "text/plain"⟩]).2.2 = 0 ∧
    onAddFolder ⟨[], []⟩ [⟨"a/b.txt", "text/plain"⟩] = ⟨[], []⟩ := by
  have h := scanFolder_image_filter [⟨"a/b.txt", "text/plain"⟩] ⟨[], []⟩
  refine ⟨?_, ?_, h.2.2.2 (by rfl)⟩
  · rw [h.1]
    rfl
  · rw [h.2.2.1]
    rfl

end KNNSpec
